import Mathlib

/-!
Verification of the feature-extraction pipeline (`API/parsing.py`,
`API/wildbox_client.py`) and the recommendation sensitivity-search engine
(`ml_model/recomendation.py`) of the predictive-analytics repository.

The Python code is shallowly embedded: numbers are modelled as `ℚ`
(CPython floats/ints under the arithmetic the code performs), raw API
payload values as an explicit `PyVal` type, collaborator calls as
explicit `Fetch` oracles (returned data / empty falsy result / raised
data-shape exception), and timestamps as rational day counts where
`datetime.date()` is the floor.  Every definition follows the source
line by line; spec-side reference definitions are clearly marked.
-/

namespace PA

/-- Python `round` on a rational: round half to even (banker's rounding),
as CPython's builtin `round` behaves. -/
def pyRound (x : ℚ) : ℤ :=
  let f : ℤ := ⌊x⌋
  let r : ℚ := x - f
  if r < 1/2 then f
  else if 1/2 < r then f + 1
  else if Even f then f else f + 1

/-- Python `int(...)` on a rational: truncation toward zero. -/
def pyInt (q : ℚ) : ℤ :=
  q.num / (q.den : ℤ)

/-- Python `round(x, 1)`: round to one decimal place. -/
def pyRound1 (x : ℚ) : ℚ :=
  (pyRound (10 * x) : ℚ) / 10

/-- A raw value stored under a key of a position mapping, as probed by
`extract_position_value`.  `vnone` stands for both an absent key and a
stored `None` (the code only ever reads keys through `pos.get(key)`,
and `'k' in pos and pos['k'] is not None`, which cannot tell the two
apart).  A string carries the result of `float(...)` on it: `some q`
when it parses, `none` when `float` raises `ValueError`.  `vother` is a
value on which `float` raises `TypeError` (a list, a dict, ...). -/
inductive PyVal where
  | vnone
  | vnum (q : ℚ)
  | vstr (parse : Option ℚ)
  | vother
deriving DecidableEq

/-- Python `float(v)` for a non-`None` value: `some` the numeric value,
`none` when it raises (`TypeError`/`ValueError`), both caught by the
source's `except (TypeError, ValueError)`. -/
def pyFloat : PyVal → Option ℚ
  | .vnone => none
  | .vnum q => some q
  | .vstr p => p
  | .vother => none

/-- The key priority list of `extract_position_value`
(`API/parsing.py:125`). -/
def posKeys : List String :=
  ["expected_position", "position", "general_position", "pos"]

/-- The key loop of `extract_position_value` (`API/parsing.py:126-133`):
for each key in order, if `pos.get(key) is not None`, try
`float(pos.get(key))`; a parsed value strictly greater than 0 is
returned, anything else falls through to the next key. -/
def extractGo (pos : String → PyVal) : List String → Option ℚ
  | [] => none
  | k :: ks =>
    match pos k with
    | .vnone => extractGo pos ks
    | v =>
      match pyFloat v with
      | some q => if 0 < q then some q else extractGo pos ks
      | none => extractGo pos ks

/-- `extract_position_value` (`API/parsing.py:116-134`).  A position
mapping is modelled as a total function `String → PyVal` with `vnone`
for absent keys. -/
def extract_position_value (pos : String → PyVal) : Option ℚ :=
  extractGo pos posKeys

/-- Reference (spec-side) view of one key probe: the value a key
contributes if present, numeric and strictly positive. -/
def keyVal (pos : String → PyVal) (k : String) : Option ℚ :=
  match pos k with
  | .vnone => none
  | v => (pyFloat v).bind fun q => if 0 < q then some q else none

/-- One element of the raw list returned by the positions collaborator:
either a mapping (a Python dict) or something else (skipped by the
`isinstance(pos, Dict)` guard at `API/parsing.py:168`). -/
inductive PosEntry where
  | dict (m : String → PyVal)
  | nondict

/-- The aggregation loop of `get_position_features`
(`API/parsing.py:167-177`), processed left to right exactly as the
Python `for` loop mutates its accumulators.  Returns
`(valid_positions, first_valid_position, expected_position)` right
after the loop: `valid_positions` in input order, `first_valid_position`
set only while still `None` (so the first valid value wins), and
`expected_position` overwritten on every valid record whose raw
`expected_position` key is present and non-null (so the last such
record wins). -/
def scanPositions : List PosEntry → List ℚ × Option ℚ × Option ℚ
  | [] => ([], none, none)
  | e :: rest =>
    let s := scanPositions rest
    match e with
    | .nondict => s
    | .dict m =>
      match extract_position_value m with
      | none => s
      | some q =>
        (q :: s.1,
         some q,
         s.2.2 <|> (if m "expected_position" ≠ PyVal.vnone then some q else none))

/-- The position-feature record built by `get_position_features`
(`API/parsing.py:149-155`). -/
structure PositionFeatures where
  avg_position : Option ℚ
  expected_position : Option ℚ
  positions_count : ℕ
  positions_found : ℕ
  first_valid_position : Option ℚ
deriving DecidableEq

/-- The defaults `get_position_features` starts from
(`API/parsing.py:149-155`). -/
def defaultPositionFeatures : PositionFeatures :=
  ⟨none, none, 0, 0, none⟩

/-- The `search_query` argument as Python sees it: a string, or a value
of some other type (rejected by `isinstance(search_query, str)`). -/
inductive Query where
  | str (s : String)
  | notStr
deriving DecidableEq

/-- Outcome of one collaborator call as observed by `parsing.py`:
`ok` is returned data, `empty` is a falsy result (`{}` or `[]`, the
shape the HTTP client returns on network errors), and `err` is a raised
data-shape exception (`ValueError`/`KeyError`/`TypeError`), the classes
the extractor catches.  A returned value of an entirely wrong top-level
type (e.g. a non-list where a list is expected) is folded into `err`:
every use site degrades it to the same defaults. -/
inductive Fetch (α : Type) where
  | ok (a : α)
  | empty
  | err

/-- `get_position_features` (`API/parsing.py:137-187`), instrumented
with the number of positions fetches it performs (second component).
The empty/non-string query guard at line 158 raises `ValueError`, which
the function's own handler catches, so the defaults are returned and
the collaborator is never consulted. -/
def get_position_features (query : Query) (positions : Fetch (List PosEntry)) :
    PositionFeatures × ℕ :=
  let features := defaultPositionFeatures
  match query with
  | .notStr => (features, 0)
  | .str s =>
    if s = "" then (features, 0)
    else
      match positions with
      | .err => (features, 1)
      | .empty => (features, 1)
      | .ok l =>
        if l.isEmpty then (features, 1)
        else
          let scanned := scanPositions l
          let valid := scanned.1
          let avg : Option ℚ :=
            if valid = [] then none else some (pyRound1 (valid.sum / valid.length))
          ({ avg_position := avg
             expected_position :=
               scanned.2.2 <|> (if valid = [] then none else avg)
             positions_count := valid.length
             positions_found := l.length
             first_valid_position := scanned.2.1 }, 1)

/-- Reference (spec-side): the extracted value of the last record, in
input order, that is a mapping with a valid extracted position and an
explicitly present, non-null raw `expected_position` key. -/
def lastExplicitExpected (l : List PosEntry) : Option ℚ :=
  (l.filterMap fun e =>
    match e with
    | .dict m =>
      if m "expected_position" ≠ PyVal.vnone then extract_position_value m else none
    | .nondict => none).getLast?

/-- One promotion record as consumed by `process_promos`: each date
field is `some` of its parsed timestamp (a rational number of days,
fractional part = time of day, as `datetime.fromisoformat` yields) or
`none` when the key is missing or the string is malformed (the
`KeyError`/`ValueError` branch at `API/parsing.py:242`). -/
structure Promo where
  start_date : Option ℚ
  end_date : Option ℚ

/-- The dates inserted for one promotion by the `while current <= end`
loop of `process_promos` (`API/parsing.py:236-241`): starting at
`start`, step one whole day while still `≤ end`, recording
`current.date()` (the floor) each time.  Runs `⌊end − start⌋ + 1` times
when `start ≤ end`, zero times otherwise; a missing/malformed field
skips the promotion. -/
def promoDates (p : Promo) : List ℤ :=
  match p.start_date, p.end_date with
  | some s, some e =>
    (List.range (if s ≤ e then (⌊e - s⌋).toNat + 1 else 0)).map
      fun k : ℕ => ⌊s⌋ + (k : ℤ)
  | _, _ => []

/-- The promo features returned by `process_promos`. -/
structure PromoFeatures where
  has_promos : ℕ
  promo_days : ℕ
deriving DecidableEq

/-- `process_promos` (`API/parsing.py:222-246`): `has_promos` is
`int(bool(promos))`, and `promo_days` the size of the set of dates
accumulated over all promotions. -/
def process_promos (promos : List Promo) : PromoFeatures :=
  let dates : Finset ℤ :=
    promos.foldl (fun acc p => acc ∪ (promoDates p).toFinset) ∅
  { has_promos := if promos.isEmpty then 0 else 1
    promo_days := dates.card }

/-- Reference (spec-side): the calendar dates covered by the inclusive
timestamp interval `[start_date, end_date]` of a promotion — every date
whose day intersects the interval, i.e. `Finset.Icc ⌊start⌋ ⌊end⌋` when
the interval is non-empty. -/
def specCoveredDates (p : Promo) : Finset ℤ :=
  match p.start_date, p.end_date with
  | some s, some e => if s ≤ e then Finset.Icc ⌊s⌋ ⌊e⌋ else ∅
  | _, _ => ∅

/-- One region entry of the geo-availability payload: its
`availability` list, each sample being `a.get('is_availability')`
(`some b` for a stored boolean, `none` for absent/other — only the
literal `True` counts as available, via `is True`). -/
structure GeoEntry where
  availability : List (Option Bool)

/-- Per-region score of the geo-visibility loop
(`API/parsing.py:58-68`): `none` for a region with no samples (skipped
by `continue`), otherwise 2 if all samples available, 1 if some, 0 if
none. -/
def regionScore (entry : GeoEntry) : Option ℤ :=
  let total := entry.availability.length
  if total = 0 then none
  else
    let available := (entry.availability.filter (· = some true)).length
    some (if available = total then 2 else if 0 < available then 1 else 0)

/-- `get_average_geo_visibility` (`API/parsing.py:37-78`).  The oracle
models `get_product_geo_visibility`: `empty` covers a falsy payload or
one without a `results` key, `err` a raised data-shape exception; both
return 0.  The loop accumulates `total_visibility` and `valid_regions`
over the entries, then rounds and clamps the average. -/
def get_average_geo_visibility (raw : Fetch (List GeoEntry)) : ℤ :=
  match raw with
  | .err => 0
  | .empty => 0
  | .ok entries =>
    let acc := entries.foldl (fun (st : ℤ × ℕ) entry =>
      match regionScore entry with
      | none => st
      | some sc => (st.1 + sc, st.2 + 1)) (0, 0)
    if acc.2 = 0 then 0
    else
      let avg := pyRound ((acc.1 : ℚ) / (acc.2 : ℚ))
      min (max avg 0) 2

/-- Reference (spec-side): the list of per-region scores over exactly
the regions with at least one availability sample. -/
def geoScores (entries : List GeoEntry) : List ℤ :=
  entries.filterMap regionScore

/-- The seven federal-district destination regions
(`GEO_ID_TO_FO`/`FO_LIST` in `API/wildbox_client.py:54-63`, in value
order ЮФО, ПФО, УФО, ДФО, СФО, СЗФО, ЦФО). -/
inductive Fo where
  | yufo | pfo | ufo | dfo | sfo | szfo | cfo
deriving DecidableEq, Fintype

/-- `FO_LIST`: the regions in their fixed declaration order. -/
def FO_LIST : List Fo := [.yufo, .pfo, .ufo, .dfo, .sfo, .szfo, .cfo]

/-- One row of the logistics matrix: the `Склад` (warehouse) key
column, the dropped `Федеральный округ` tag column, and one duration
cell per destination region, `none` standing for a missing/NaN cell
(anything for which `x > 1` is false without raising). -/
structure MatrixRow where
  sklad : String
  federal_district : String
  durations : Fo → Option ℚ

/-- `FALLBACK_WAREHOUSES` (`API/wildbox_client.py:51`). -/
def FALLBACK_WAREHOUSES : List String :=
  ["Подольск", "Коледино", "Электросталь", "Казань"]

/-- Minimum of a list of rationals, `none` on the empty list — the
column-wise `DataFrame.min()` over the cells remaining after the
`x if x > 1 else None` map (pandas skips the `None` cells). -/
def listMin : List ℚ → Option ℚ
  | [] => none
  | x :: xs =>
    match listMin xs with
    | none => some x
    | some m => some (min x m)

/-- `get_delivery_times` (`API/wildbox_client.py:261-278`), with the
warehouse set already fetched: keep the matrix rows whose `Склад` is in
the product's warehouse set, falling back to the rows matching
`FALLBACK_WAREHOUSES` when none match; null every duration cell not
strictly greater than 1; take the column-wise minimum. -/
def get_delivery_times (warehouses : List String) (matrix : List MatrixRow) :
    Fo → Option ℚ :=
  let filtered := matrix.filter fun r => r.sklad ∈ warehouses
  let rows :=
    if filtered.isEmpty then matrix.filter fun r => r.sklad ∈ FALLBACK_WAREHOUSES
    else filtered
  fun fo =>
    listMin (rows.filterMap fun r =>
      (r.durations fo).bind fun x => if 1 < x then some x else none)

/-- `get_delivery_features` (`API/parsing.py:81-113`), the warehouses
oracle standing for the `get_all_warehouses_for_product` call inside
`get_delivery_times`: an `err` outcome raises into the function's own
handler, leaving every feature at its 0 default; an `empty` outcome is
the client returning `[]`, which flows into the fallback-warehouse
filter.  Returns the per-region `delivery_<fo>` map and
`avg_delivery_time`. -/
def get_delivery_features (warehouses : Fetch (List String))
    (matrix : List MatrixRow) : (Fo → ℤ) × ℤ :=
  match warehouses with
  | .err => (fun _ => 0, 0)
  | .empty => deliveryLoop [] matrix
  | .ok ws => deliveryLoop ws matrix
where
  /-- The `for federal_district in FO_LIST` loop (lines 101-108): each
  region with a non-null, strictly positive minimum is populated with
  `int(time)` and its raw minimum appended to `valid_times`;
  `avg_delivery_time` is `int(np.mean(valid_times))` when any were
  collected. -/
  deliveryLoop (ws : List String) (matrix : List MatrixRow) : (Fo → ℤ) × ℤ :=
    let times := get_delivery_times ws matrix
    let valid : List ℚ := FO_LIST.filterMap fun fo =>
      (times fo).bind fun t => if 0 < t then some t else none
    (fun fo =>
      match times fo with
      | some t => if 0 < t then pyInt t else 0
      | none => 0,
     if valid.isEmpty then 0 else pyInt (valid.sum / valid.length))

/-- Reference (spec-side): the duration values strictly greater than 1
for one region across the matrix rows matching the resolved warehouse
set. -/
def specRegionDurations (ws : List String) (matrix : List MatrixRow) (fo : Fo) :
    List ℚ :=
  let filtered := matrix.filter fun r => r.sklad ∈ ws
  let rows :=
    if filtered.isEmpty then matrix.filter fun r => r.sklad ∈ FALLBACK_WAREHOUSES
    else filtered
  (rows.filterMap fun r => r.durations fo).filter fun x => 1 < x

/-- The `'brand'` sub-mapping of a product payload, carrying the
optional `id` handed to `get_brand_details`. -/
structure BrandRef where
  id : Option ℚ

/-- One element of the `dynamic` list: a mapping with an optional
`visibility` counter, or a non-dict (skipped by the generator's
`isinstance(day, Dict)` filter at `API/parsing.py:306`). -/
inductive DynEntry where
  | dict (visibility : Option ℚ)
  | nondict

/-- Product payload as consumed by `process_product_data` and
`extract_product_features`: each numeric field is `some` its value when
the key is present, read through `.get(key, 0)`-style defaults. -/
structure ProductData where
  orders : Option ℚ
  proceeds : Option ℚ
  price : Option ℚ
  discount : Option ℚ
  old_price : Option ℚ
  rating : Option ℚ
  in_stock_percent : Option ℚ
  reviews : Option ℚ
  feedbacks : Option ℚ
  promos : List Promo
  brand : Option BrandRef
  dynamic : List DynEntry

/-- Brand payload (`get_brand_details` result) as consumed at
`API/parsing.py:297-300`. -/
structure BrandData where
  rating : Option ℚ
  reviews : Option ℚ

/-- `REVENUE_THRESHOLDS` (`API/parsing.py:29-34`), in the dict's
insertion order, which is how `process_product_data` iterates it. -/
def REVENUE_THRESHOLDS : List (String × ℚ) :=
  [("Золотой", 8709000), ("Серебряный", 1868000),
   ("Бронзовый", 382000), ("Начальный", 50000)]

/-- The loyalty loop of `process_product_data`
(`API/parsing.py:214-217`): first threshold band with
`revenue >= threshold` wins, default `'Нет данных'`. -/
def loyaltyLoop (revenue : ℚ) : List (String × ℚ) → String
  | [] => "Нет данных"
  | (level, threshold) :: rest =>
    if threshold ≤ revenue then level else loyaltyLoop revenue rest

/-- The features produced by `process_product_data`. -/
structure CommercialFeatures where
  orders : ℚ
  revenue : ℚ
  price : ℚ
  discount : ℚ
  old_price : ℚ
  rating : ℚ
  in_stock_percent : ℚ
  reviews_last_day : ℚ
  loyalty_level : String

/-- `process_product_data` (`API/parsing.py:190-219`). -/
def process_product_data (pd : ProductData) : CommercialFeatures :=
  let revenue := pd.proceeds.getD 0
  { orders := pd.orders.getD 0
    revenue := revenue
    price := pd.price.getD 0
    discount := pd.discount.getD 0
    old_price := pd.old_price.getD 0
    rating := pd.rating.getD 0
    in_stock_percent := pd.in_stock_percent.getD 0
    reviews_last_day := pd.reviews.getD (pd.feedbacks.getD 0)
    loyalty_level := loyaltyLoop revenue REVENUE_THRESHOLDS }

/-- The `sum(day.get('visibility', 0) for day in dynamic_data if
isinstance(day, Dict))` expression (`API/parsing.py:303-307`). -/
def sumViews (dynamic : List DynEntry) : ℚ :=
  (dynamic.filterMap fun d =>
    match d with
    | .dict v => some (v.getD 0)
    | .nondict => none).sum

/-- The five collaborator calls `extract_product_features` makes, as
oracles.  `warehouses` is consulted both for delivery times and for
`main_warehouse`; both reads of one extraction see the same outcome. -/
structure Collaborators where
  product_details : Fetch ProductData
  brand_details : Fetch BrandData
  geo_visibility : Fetch (List GeoEntry)
  warehouses : Fetch (List String)
  positions : Fetch (List PosEntry)

/-- The complete feature record assembled by
`extract_product_features`: the initial dict of `API/parsing.py:263-287`
plus the eight delivery keys merged in by
`features.update(get_delivery_features(...))` (always all set, so they
are record fields here). -/
structure FeatureRecord where
  product_id : ℤ
  query : Query
  orders : ℚ
  revenue : ℚ
  price : ℚ
  discount : ℚ
  old_price : ℚ
  rating : ℚ
  in_stock_percent : ℚ
  has_promos : ℕ
  brand_rating : ℚ
  brand_reviews : ℚ
  reviews_last_day : ℚ
  promo_days : ℕ
  sum_views : ℚ
  avg_visibility : ℤ
  main_warehouse : String
  avg_position : Option ℚ
  expected_position : Option ℚ
  positions_count : ℕ
  positions_found : ℕ
  first_valid_position : Option ℚ
  loyalty_level : String
  delivery : Fo → ℤ
  avg_delivery_time : ℤ

/-- The defaults of the `features` dict (`API/parsing.py:263-287`),
delivery fields at the 0 defaults `get_delivery_features` starts from. -/
def initialFeatures (pid : ℤ) (q : Query) : FeatureRecord :=
  { product_id := pid
    query := q
    orders := 0
    revenue := 0
    price := 0
    discount := 0
    old_price := 0
    rating := 0
    in_stock_percent := 0
    has_promos := 0
    brand_rating := 0
    brand_reviews := 0
    reviews_last_day := 0
    promo_days := 0
    sum_views := 0
    avg_visibility := 0
    main_warehouse := "Не определен"
    avg_position := none
    expected_position := none
    positions_count := 0
    positions_found := 0
    first_valid_position := none
    loyalty_level := "Нет данных"
    delivery := fun _ => 0
    avg_delivery_time := 0 }

/-- `extract_product_features` (`API/parsing.py:249-323`).  The first
try-block mutates `features` step by step; an exception raised by the
brand lookup is caught by that block's handler, so the commercial and
promo updates already applied survive while the dynamic-views update is
skipped.  Afterwards visibility, delivery, main warehouse and position
features are filled in, each behind its own local error handling. -/
def extract_product_features (pid : ℤ) (q : Query) (matrix : List MatrixRow)
    (c : Collaborators) : FeatureRecord :=
  let base := initialFeatures pid q
  let afterProduct :=
    match c.product_details with
    | .err => base
    | .empty => base
    | .ok pd =>
      let comm := process_product_data pd
      let promo := process_promos pd.promos
      let f2 :=
        { base with
          orders := comm.orders
          revenue := comm.revenue
          price := comm.price
          discount := comm.discount
          old_price := comm.old_price
          rating := comm.rating
          in_stock_percent := comm.in_stock_percent
          reviews_last_day := comm.reviews_last_day
          loyalty_level := comm.loyalty_level
          has_promos := promo.has_promos
          promo_days := promo.promo_days }
      let withDyn := fun (f : FeatureRecord) =>
        if pd.dynamic.isEmpty then f else { f with sum_views := sumViews pd.dynamic }
      match pd.brand with
      | none => withDyn f2
      | some _ =>
        match c.brand_details with
        | .err => f2
        | .empty => withDyn f2
        | .ok bd =>
          withDyn { f2 with
                    brand_rating := bd.rating.getD 0
                    brand_reviews := bd.reviews.getD 0 }
  let vis := get_average_geo_visibility c.geo_visibility
  let deliv := get_delivery_features c.warehouses matrix
  let mainWh :=
    match c.warehouses with
    | .ok (w :: _) => w
    | _ => afterProduct.main_warehouse
  let pos := (get_position_features q c.positions).1
  { afterProduct with
    avg_visibility := vis
    delivery := deliv.1
    avg_delivery_time := deliv.2
    main_warehouse := mainWh
    avg_position := pos.avg_position
    expected_position := pos.expected_position
    positions_count := pos.positions_count
    positions_found := pos.positions_found
    first_valid_position := pos.first_valid_position }

/-- Every collaborator call fails (raises a caught data-shape
exception) or returns an empty result. -/
def AllFailed (c : Collaborators) : Prop :=
  (c.product_details = .empty ∨ c.product_details = .err) ∧
  (c.brand_details = .empty ∨ c.brand_details = .err) ∧
  (c.geo_visibility = .empty ∨ c.geo_visibility = .err) ∧
  (c.warehouses = .empty ∨ c.warehouses = .err) ∧
  (c.positions = .empty ∨ c.positions = .err)

/-! ## Recommendation engine (`ml_model/recomendation.py`) -/

/-- The eleven tunable features of `TUNABLE_FEATURES`
(`ml_model/recomendation.py:29-41`), one constructor per key. -/
inductive TunableFeature where
  | price          -- "Цена"
  | discount       -- "Скидка"
  | rating         -- "Рейтинг"
  | stock          -- "Наличие (%)"
  | promoDays      -- "Дней в акциях"
  | visibility     -- "Средняя видимость"
  | reviews        -- "Количество отзывов"
  | avgDelivery    -- "Ср время доставки (ч)"
  | delivYufo      -- "Доставка_ЮФО_(ч)"
  | delivPfo       -- "Доставка_ПФО_(ч)"
  | delivCfo       -- "Доставка_ЦФО_(ч)"
deriving DecidableEq, Fintype

/-- The `{delta, min, max}` configuration of one tunable feature. -/
structure TuneParams where
  delta : ℚ
  lo : Option ℚ
  hi : Option ℚ

/-- The per-feature configuration of `TUNABLE_FEATURES`. -/
def tuneParams : TunableFeature → TuneParams
  | .price => ⟨-100, some 0, none⟩
  | .discount => ⟨5, some 0, some 70⟩
  | .rating => ⟨1/10, some 0, some 5⟩
  | .stock => ⟨5, some 0, some 100⟩
  | .promoDays => ⟨5, some 0, some 31⟩
  | .visibility => ⟨1/20, some 0, some 1⟩
  | .reviews => ⟨10, some 0, none⟩
  | .avgDelivery => ⟨-1, some 20, none⟩
  | .delivYufo => ⟨-2, some 20, none⟩
  | .delivPfo => ⟨-2, some 20, none⟩
  | .delivCfo => ⟨-2, some 20, none⟩

/-- The declaration (dict-insertion) order in which the sweep iterates
`TUNABLE_FEATURES.items()`. -/
def tunableOrder : List TunableFeature :=
  [.price, .discount, .rating, .stock, .promoDays, .visibility,
   .reviews, .avgDelivery, .delivYufo, .delivPfo, .delivCfo]

/-- `TUNABLE_FEATURES` as the association list the loop walks. -/
def TUNABLE_FEATURES : List (TunableFeature × TuneParams) :=
  tunableOrder.map fun f => (f, tuneParams f)

/-- Declaration index of a tunable feature (position in
`tunableOrder`), the tie-break order of the stable sort. -/
def declIdx (f : TunableFeature) : ℕ :=
  tunableOrder.indexOf f

/-- The single CSV row the engine operates on: the values of the
tunable columns, which tunable columns are present in the file at all
(`feature not in df.columns` skips a feature), and the remaining
columns (categoricals and anything else the predictor reads), opaque in
a type parameter. -/
structure Row (χ : Type) where
  tunable : TunableFeature → ℚ
  present : TunableFeature → Bool
  rest : χ

/-- `df_copy.at[0, feature] = v`: overwrite one tunable cell. -/
def setVal {χ : Type} (r : Row χ) (f : TunableFeature) (v : ℚ) : Row χ :=
  { r with tunable := Function.update r.tunable f v }

/-- The clamp of `recomendation.py:121-126`: `original + delta`, raised
to `min` when below it, then lowered to `max` when above it. -/
def clampNew (original : ℚ) (p : TuneParams) : ℚ :=
  let n := original + p.delta
  let n :=
    match p.lo with
    | some m => if n < m then m else n
    | none => n
  match p.hi with
  | some m => if m < n then m else n
  | none => n

/-- One surviving recommendation
(`recomendation.py:138-143`). -/
structure Rec where
  feature : TunableFeature
  original : ℚ
  new : ℚ
  improvement : ℚ
deriving DecidableEq

/-- One iteration of the sweep loop (`recomendation.py:115-145`) over
state `(df_copy, recommendations, predictor-call log)`: skip absent
columns, clamp, skip no-op perturbations, apply the perturbation to the
scratch copy, predict, keep the candidate when `improvement > 0`, and
restore the scratch cell to the original value. -/
def sweepStep {χ : Type} (predict : Row χ → ℚ) (df : Row χ) (baseline : ℚ)
    (st : Row χ × List Rec × List (Row χ)) (fp : TunableFeature × TuneParams) :
    Row χ × List Rec × List (Row χ) :=
  if df.present fp.1 = false then st
  else
    let original := df.tunable fp.1
    let newValue := clampNew original fp.2
    if newValue = original then st
    else
      let dfc1 := setVal st.1 fp.1 newValue
      let newPos := predict dfc1
      let improvement := baseline - newPos
      let recs :=
        if 0 < improvement then
          st.2.1 ++ [⟨fp.1, original, newValue, improvement⟩]
        else st.2.1
      (setVal dfc1 fp.1 original, recs, st.2.2 ++ [dfc1])

/-- The full sweep: fold the loop over `TUNABLE_FEATURES` starting from
the fresh scratch copy `df.copy()`, with
`baseline = model.predict(df)` (`recomendation.py:68`). -/
def sweep {χ : Type} (df : Row χ) (predict : Row χ → ℚ) :
    Row χ × List Rec × List (Row χ) :=
  TUNABLE_FEATURES.foldl (sweepStep predict df (predict df)) (df, [], [])

/-- The scratch copy after the sweep finishes. -/
def sweepScratch {χ : Type} (df : Row χ) (predict : Row χ → ℚ) : Row χ :=
  (sweep df predict).1

/-- The records the predictor was called on during the sweep, in call
order. -/
def sweepCalls {χ : Type} (df : Row χ) (predict : Row χ → ℚ) : List (Row χ) :=
  (sweep df predict).2.2

/-- Sort key of `recommendations.sort(key=lambda x: -x["improvement"])`:
Python's stable `list.sort` ascending on `-improvement` is the stable
descending order on `improvement`, realised here by insertion sort with
the (total, decidable) `improvement`-descending preorder — insertion
sort inserts each earlier element before the equal-key elements that
follow it, which is exactly the stability contract. -/
def recLE (a b : Rec) : Prop := b.improvement ≤ a.improvement

instance : DecidableRel recLE := fun a b => by
  unfold recLE; infer_instance

/-- The sorted recommendation list (`recomendation.py:113-147`). -/
def recommendations {χ : Type} (df : Row χ) (predict : Row χ → ℚ) : List Rec :=
  List.insertionSort recLE (sweep df predict).2.1

/-- The reported recommendations: the loop
`for i, rec in enumerate(recommendations[:5], 1)` prints the top 5
(`recomendation.py:149`). -/
def reported {χ : Type} (df : Row χ) (predict : Row χ → ℚ) : List Rec :=
  (recommendations df predict).take 5

/-- The candidate produced for a feature when the sweep perturbs it:
the clamped value and the improvement of the one-feature change against
the baseline. -/
def candidate {χ : Type} (df : Row χ) (predict : Row χ → ℚ)
    (f : TunableFeature) : Rec :=
  let original := df.tunable f
  let newValue := clampNew original (tuneParams f)
  ⟨f, original, newValue, predict df - predict (setVal df f newValue)⟩

/-- The script prelude (`recomendation.py:59-68`) around the sweep:
exactly one CSV row is required; zero or several rows print an error
and `exit()` before any predictor call.  Returns the report (baseline
and top-5 list) or `none` for the fatal exit, paired with the number of
predictor invocations performed. -/
def runScript {χ : Type} (data : List (Row χ)) (predict : Row χ → ℚ) :
    Option (ℚ × List Rec) × ℕ :=
  match data with
  | [row] =>
    (some (predict row, reported row predict), 1 + (sweepCalls row predict).length)
  | _ => (none, 0)

/-! ## Reference (spec-side) definitions and concrete instances -/

/-- Reference (spec-side) per-region score stated as the spec words it:
2 if all samples are available, 1 if some but not all, 0 if none;
no score for a region without samples. -/
def specScore (e : GeoEntry) : Option ℤ :=
  if e.availability = [] then none
  else some
    (if ∀ a ∈ e.availability, a = some true then 2
     else if ∃ a ∈ e.availability, a = some true then 1
     else 0)

/-- The set of dates the promo loop accumulates, as a right fold (the
source folds left over a set union, which is order-insensitive). -/
def promoDateSet (promos : List Promo) : Finset ℤ :=
  promos.foldr (fun p s => (promoDates p).toFinset ∪ s) ∅

/-- Reference (spec-side): union of the calendar dates covered by each
promotion's inclusive timestamp interval. -/
def specPromoCovered (promos : List Promo) : Finset ℤ :=
  promos.foldr (fun p s => specCoveredDates p ∪ s) ∅

/-- A promotion whose end time-of-day is no earlier than its start
time-of-day (in particular any date-only pair of timestamps): on these
the whole-day stepping loop hits exactly the covered calendar dates. -/
def Aligned (p : Promo) : Prop :=
  ∀ s e : ℚ, p.start_date = some s → p.end_date = some e →
    Int.fract s ≤ Int.fract e

/-- The candidate recommendation a sweep iteration contributes
(`none` when the column is absent, the clamp is a no-op, or the
improvement is not strictly positive). -/
def candidateOpt {χ : Type} (df : Row χ) (predict : Row χ → ℚ)
    (fp : TunableFeature × TuneParams) : Option Rec :=
  if df.present fp.1 = false then none
  else
    let original := df.tunable fp.1
    let newValue := clampNew original fp.2
    if newValue = original then none
    else
      let improvement := predict df - predict (setVal df fp.1 newValue)
      if 0 < improvement then some ⟨fp.1, original, newValue, improvement⟩
      else none

/-- The predictor call a sweep iteration performs (`none` when the
iteration is skipped before predicting). -/
def callOpt {χ : Type} (df : Row χ) (fp : TunableFeature × TuneParams) :
    Option (Row χ) :=
  if df.present fp.1 = false then none
  else
    let original := df.tunable fp.1
    let newValue := clampNew original fp.2
    if newValue = original then none
    else some (setVal df fp.1 newValue)

/-- The ranking the claim asserts of the sorted output: strictly larger
improvement first, ties in declaration order. -/
def recRank (a b : Rec) : Prop :=
  b.improvement < a.improvement ∨
    (a.improvement = b.improvement ∧ declIdx a.feature < declIdx b.feature)

/-- A collaborator set in which every call returns an empty result. -/
def emptyCollaborators : Collaborators :=
  ⟨.empty, .empty, .empty, .empty, .empty⟩

/-- A one-row logistics matrix whose warehouse is on the fallback list
and which carries a measured ЮФО duration. -/
def podolskMatrix : List MatrixRow :=
  [{ sklad := "Подольск", federal_district := "ЦФО",
     durations := fun fo => if fo = Fo.yufo then some 10 else none }]

/-- A concrete single-product row for witnesses: every tunable cell
holds 100, only the price column is present, no other columns. -/
def exampleRow : Row Unit :=
  ⟨fun _ => 100, fun f => decide (f = TunableFeature.price), ()⟩

/-- A concrete deterministic predictor for witnesses: the predicted
position is the price cell. -/
def examplePredict : Row Unit → ℚ := fun r => r.tunable TunableFeature.price

/-! ## Theorems -/

/-- The key loop equals the first-hit view over the priority list. -/
theorem extractGo_eq_head (pos : String → PyVal) :
    ∀ ks : List String, extractGo pos ks = (ks.filterMap (keyVal pos)).head? := by
  intro ks
  induction ks with
  | nil => rfl
  | cons k ks ih =>
    show extractGo pos (k :: ks) = _
    rw [List.filterMap_cons]
    cases h : pos k with
    | vnone => simp [extractGo, keyVal, h, ih]
    | vnum q =>
      by_cases hq : 0 < q
      · simp [extractGo, keyVal, h, pyFloat, hq]
      · simp [extractGo, keyVal, h, pyFloat, hq, ih]
    | vstr p =>
      cases p with
      | none => simp [extractGo, keyVal, h, pyFloat, ih]
      | some q =>
        by_cases hq : 0 < q
        · simp [extractGo, keyVal, h, pyFloat, hq]
        · simp [extractGo, keyVal, h, pyFloat, hq, ih]
    | vother => simp [extractGo, keyVal, h, pyFloat, ih]

/-- C5: `extract_position_value` probes `expected_position`,
`position`, `general_position`, `pos` in that order and returns the
first value that is present, numeric and strictly positive; a key that
is absent, null, non-numeric or non-positive is skipped without
blocking later keys, and `none` results when no key qualifies.  In
particular `{"position": "30", "expected_position": "5"}` extracts `5`
and `{"position": "-3"}` extracts `none`. -/
theorem extract_position_value_priority :
    (∀ pos : String → PyVal,
      extract_position_value pos = (posKeys.filterMap (keyVal pos)).head?) ∧
    extract_position_value (fun k =>
      if k = "position" then .vstr (some 30)
      else if k = "expected_position" then .vstr (some 5)
      else .vnone) = some 5 ∧
    extract_position_value (fun k =>
      if k = "position" then .vstr (some (-3)) else .vnone) = none :=
  ⟨fun pos => extractGo_eq_head pos posKeys, by decide, by decide⟩

/-- C10: an empty-string or non-string search query makes
`get_position_features` return the full default position-feature record
(the `ValueError` it raises is caught by its own handler) and perform
zero positions fetches. -/
theorem position_features_bad_query_defaults :
    ∀ o : Fetch (List PosEntry),
      get_position_features (.str "") o = (defaultPositionFeatures, 0) ∧
      get_position_features .notStr o = (defaultPositionFeatures, 0) :=
  fun _ => ⟨rfl, rfl⟩

/-- C3: a CSV with zero rows or more than one row makes the
recommendation script print its error and `exit()` before the baseline
prediction, so no report is produced and the predictor is called zero
times. -/
theorem recommendation_single_record_guard :
    ∀ (χ : Type) (data : List (Row χ)) (predict : Row χ → ℚ),
      data.length ≠ 1 → runScript data predict = (none, 0) := by
  intro χ data predict h
  match data with
  | [] => rfl
  | [row] => exact absurd rfl h
  | a :: b :: t => rfl

/-- Witness for the single-record guard at the concrete empty input. -/
theorem recommendation_single_record_guard_witness :
    ([] : List (Row Unit)).length ≠ 1 ∧
      runScript ([] : List (Row Unit)) (fun _ => 0) = (none, 0) :=
  ⟨by decide,
   recommendation_single_record_guard Unit [] (fun _ => 0) (by decide)⟩

theorem getLast?_cons_orElse {α : Type} (a : α) (l : List α) :
    (a :: l).getLast? = (l.getLast? <|> some a) := by
  induction l generalizing a with
  | nil => rfl
  | cons b t ih =>
    rw [List.getLast?_cons_cons, ih b]
    cases h : t.getLast? <;> simp

/-- One unfolding step of `lastExplicitExpected`. -/
theorem lastExplicitExpected_cons (e : PosEntry) (rest : List PosEntry) :
    lastExplicitExpected (e :: rest) =
      (lastExplicitExpected rest <|>
        (match e with
         | .dict m =>
           if m "expected_position" ≠ PyVal.vnone then extract_position_value m
           else none
         | .nondict => none)) := by
  cases e with
  | nondict =>
    simp only [lastExplicitExpected, List.filterMap_cons]
    cases h : (List.filterMap (fun e =>
        match e with
        | PosEntry.dict m =>
          if m "expected_position" ≠ PyVal.vnone then extract_position_value m
          else none
        | PosEntry.nondict => none) rest).getLast? <;> simp [h]
  | dict m =>
    simp only [lastExplicitExpected, List.filterMap_cons]
    cases h : (if m "expected_position" ≠ PyVal.vnone then extract_position_value m
        else none) with
    | none =>
      cases h2 : (List.filterMap (fun e =>
          match e with
          | PosEntry.dict m =>
            if m "expected_position" ≠ PyVal.vnone then extract_position_value m
            else none
          | PosEntry.nondict => none) rest).getLast? <;> simp [h, h2]
    | some q => simp [h, getLast?_cons_orElse]

/-- The `expected_position` accumulator after the loop holds the value
of the last qualifying record. -/
theorem scan_expected_eq_last (l : List PosEntry) :
    (scanPositions l).2.2 = lastExplicitExpected l := by
  induction l with
  | nil => rfl
  | cons e rest ih =>
    rw [lastExplicitExpected_cons, ← ih]
    cases e with
    | nondict => simp [scanPositions]
    | dict m =>
      cases hq : extract_position_value m with
      | none =>
        by_cases hm : m "expected_position" = PyVal.vnone
        · simp [scanPositions, hq, hm]
        · simp [scanPositions, hq, hm]
      | some q =>
        by_cases hm : m "expected_position" = PyVal.vnone
        · simp [scanPositions, hq, hm]
        · simp [scanPositions, hq, hm]

/-- C4 (amended): `expected_position` equals the extracted value of the
LAST record, in input order, that yields a valid extracted value and
whose raw `expected_position` key is explicitly present and non-null
(each qualifying record overwrites the field); if no record qualifies
it falls back to `avg_position`, which is `none` when there are no
valid positions at all. -/
theorem position_features_expected_last :
    ∀ (s : String) (l : List PosEntry), s ≠ "" →
      (get_position_features (.str s) (.ok l)).1.expected_position =
        (lastExplicitExpected l <|>
          (get_position_features (.str s) (.ok l)).1.avg_position) := by
  intro s l hs
  rw [← scan_expected_eq_last]
  unfold get_position_features
  simp only [if_neg hs]
  by_cases hl : l.isEmpty
  · have : l = [] := List.isEmpty_iff.mp hl
    subst this
    simp [defaultPositionFeatures, scanPositions]
  · simp only [hl, if_neg, Bool.false_eq_true, ↓reduceIte]
    by_cases hv : (scanPositions l).1 = [] <;> simp [hv]

/-- C4, claim as stated, refuted: for the input
`[{"expected_position": 5}, {"expected_position": 7}]` the FIRST record
with an explicit non-null `expected_position` extracts `5`, yet the
code reports `expected_position = 7` — the last qualifying record wins,
not the first. -/
theorem position_features_expected_first_refuted :
    extract_position_value
        (fun k => if k = "expected_position" then .vnum 5 else .vnone) = some 5 ∧
    (fun k => if k = "expected_position" then .vnum 5 else .vnone)
        "expected_position" ≠ PyVal.vnone ∧
    (get_position_features (.str "q")
        (.ok [.dict (fun k => if k = "expected_position" then .vnum 5 else .vnone),
              .dict (fun k => if k = "expected_position" then .vnum 7 else .vnone)])).1.expected_position
      = some 7 ∧ (some (7 : ℚ) ≠ some 5) :=
  ⟨by decide, by decide, by decide, by decide⟩

/-- Witness for the last-record characterisation at a concrete input. -/
theorem position_features_expected_last_witness :
    (get_position_features (.str "q")
        (.ok [.dict (fun k => if k = "expected_position" then .vnum 5 else .vnone)])).1.expected_position =
      (lastExplicitExpected
          [.dict (fun k => if k = "expected_position" then .vnum 5 else .vnone)] <|>
        (get_position_features (.str "q")
            (.ok [.dict (fun k =>
              if k = "expected_position" then .vnum 5 else .vnone)])).1.avg_position) :=
  position_features_expected_last "q"
    [.dict (fun k => if k = "expected_position" then .vnum 5 else .vnone)] (by decide)

/-- The geo fold accumulates the sum and the count of the per-region
scores. -/
theorem geo_fold_eq (entries : List GeoEntry) :
    ∀ init : ℤ × ℕ,
      (entries.foldl (fun (st : ℤ × ℕ) entry =>
        match regionScore entry with
        | none => st
        | some sc => (st.1 + sc, st.2 + 1)) init) =
      (init.1 + (geoScores entries).sum, init.2 + (geoScores entries).length) := by
  induction entries with
  | nil => intro init; simp [geoScores]
  | cons e rest ih =>
    intro init
    show (rest.foldl _ (match regionScore e with
      | none => init
      | some sc => (init.1 + sc, init.2 + 1))) = _
    cases h : regionScore e with
    | none => rw [ih]; simp [geoScores, List.filterMap_cons, h]
    | some sc =>
      rw [ih]
      simp only [geoScores, List.filterMap_cons, h, List.sum_cons, List.length_cons,
        Prod.mk.injEq]
      exact ⟨by ring, by omega⟩

/-- Functional characterisation of `get_average_geo_visibility` on a
returned payload. -/
theorem geo_ok_eq (entries : List GeoEntry) :
    get_average_geo_visibility (.ok entries) =
      (if (geoScores entries).isEmpty then 0
       else
         min (max (pyRound
           ((geoScores entries).sum / ((geoScores entries).length : ℚ))) 0) 2) := by
  simp only [get_average_geo_visibility]
  rw [geo_fold_eq entries (0, 0)]
  simp only [zero_add]
  by_cases h : (geoScores entries).length = 0
  · simp [h, List.isEmpty_iff, List.length_eq_zero.mp h]
  · have hne : (geoScores entries).isEmpty = false := by
      cases hg : geoScores entries with
      | nil => exact absurd (by rw [hg]; rfl) h
      | cons a t => rfl
    simp [h, hne]

/-- The loop's per-region score is the spec's: 2 when all samples are
available, 1 when some but not all are, 0 when none are, and no score
at all for a region without samples. -/
theorem regionScore_eq_spec (e : GeoEntry) : regionScore e = specScore e := by
  unfold regionScore specScore
  by_cases h0 : e.availability = []
  · simp [h0]
  · have hlen : e.availability.length ≠ 0 :=
      fun hc => h0 (List.length_eq_zero.mp hc)
    rw [if_neg hlen, if_neg h0]
    refine congrArg some ?_
    by_cases hall : ∀ a ∈ e.availability, a = some true
    · rw [if_pos hall]
      have hfl : (e.availability.filter (· = some true)).length =
          e.availability.length :=
        List.filter_length_eq_length.mpr fun a ha => by simp [hall a ha]
      rw [if_pos hfl]
    · rw [if_neg hall]
      have hfl : (e.availability.filter (· = some true)).length ≠
          e.availability.length := fun hc =>
        hall fun a ha => by simpa using List.filter_length_eq_length.mp hc a ha
      rw [if_neg hfl]
      by_cases hex : ∃ a ∈ e.availability, a = some true
      · rw [if_pos hex]
        obtain ⟨a, ha, hav⟩ := hex
        have hmem : a ∈ e.availability.filter (· = some true) :=
          List.mem_filter.mpr ⟨ha, by simp [hav]⟩
        rw [if_pos (List.length_pos.mpr (List.ne_nil_of_mem hmem))]
      · rw [if_neg hex]
        have hfe : e.availability.filter (· = some true) = [] :=
          List.filter_eq_nil_iff.mpr fun a ha => by
            simp only [decide_eq_true_eq]
            exact fun hc => hex ⟨a, ha, hc⟩
        rw [if_neg (by simp [hfe])]

/-- C7: geo-visibility is 0 on a failed or empty payload, otherwise the
average of the per-region scores (2 all available / 1 some / 0 none)
over exactly the regions with at least one sample, rounded and clamped
to [0, 2]; the result always lies in {0, 1, 2} and regions with zero
samples never affect it. -/
theorem geo_visibility_contract :
    (∀ e, regionScore e = specScore e) ∧
    (∀ entries, get_average_geo_visibility (.ok entries) =
      (if (geoScores entries).isEmpty then 0
       else
         min (max (pyRound
           ((geoScores entries).sum / ((geoScores entries).length : ℚ))) 0) 2)) ∧
    get_average_geo_visibility .empty = 0 ∧
    get_average_geo_visibility .err = 0 ∧
    (∀ raw, get_average_geo_visibility raw ∈ ({0, 1, 2} : Set ℤ)) ∧
    (∀ l₁ l₂ e, e.availability = [] →
      get_average_geo_visibility (.ok (l₁ ++ e :: l₂)) =
        get_average_geo_visibility (.ok (l₁ ++ l₂))) := by
  refine ⟨regionScore_eq_spec, geo_ok_eq, rfl, rfl, ?_, ?_⟩
  · intro raw
    cases raw with
    | empty => exact Or.inl rfl
    | err => exact Or.inl rfl
    | ok entries =>
      rw [geo_ok_eq]
      by_cases h : (geoScores entries).isEmpty = true
      · simp [h]
      · rw [if_neg h]
        set z : ℤ := pyRound
          ((geoScores entries).sum / ((geoScores entries).length : ℚ)) with hz
        have h1 : (0 : ℤ) ≤ min (max z 0) 2 :=
          le_min (le_max_right _ _) (by norm_num)
        have h2 : min (max z 0) 2 ≤ 2 := min_le_right _ _
        simp only [Set.mem_insert_iff, Set.mem_singleton_iff]
        omega
  · intro l₁ l₂ e he
    have hnone : regionScore e = none := by simp [regionScore, he]
    rw [geo_ok_eq, geo_ok_eq]
    have : geoScores (l₁ ++ e :: l₂) = geoScores (l₁ ++ l₂) := by
      simp [geoScores, List.filterMap_append, List.filterMap_cons, hnone]
    rw [this]

/-- Witness for the geo-visibility contract: membership at a concrete
payload and zero-sample exclusion at a concrete insertion. -/
theorem geo_visibility_contract_witness :
    get_average_geo_visibility (.ok [⟨[some true]⟩]) ∈ ({0, 1, 2} : Set ℤ) ∧
    get_average_geo_visibility (.ok [⟨[some true]⟩, ⟨[]⟩]) =
      get_average_geo_visibility (.ok [⟨[some true]⟩]) :=
  ⟨geo_visibility_contract.2.2.2.2.1 (.ok [⟨[some true]⟩]),
   geo_visibility_contract.2.2.2.2.2 [⟨[some true]⟩] [] ⟨[]⟩ rfl⟩

/-- The left fold over set unions the promo loop performs equals the
right-fold union. -/
theorem promo_foldl_eq (promos : List Promo) :
    ∀ acc : Finset ℤ,
      promos.foldl (fun acc p => acc ∪ (promoDates p).toFinset) acc =
        acc ∪ promoDateSet promos := by
  induction promos with
  | nil => intro acc; simp [promoDateSet]
  | cons p t ih =>
    intro acc
    show t.foldl _ (acc ∪ (promoDates p).toFinset) = _
    rw [ih]
    simp [promoDateSet, Finset.union_assoc]

/-- `promo_days` counts the accumulated date set. -/
theorem promo_days_eq_card (promos : List Promo) :
    (process_promos promos).promo_days = (promoDateSet promos).card := by
  unfold process_promos
  rw [promo_foldl_eq]
  simp

theorem promoDateSet_append (l₁ l₂ : List Promo) :
    promoDateSet (l₁ ++ l₂) = promoDateSet l₁ ∪ promoDateSet l₂ := by
  induction l₁ with
  | nil => simp [promoDateSet]
  | cons p t ih =>
    show (promoDates p).toFinset ∪ promoDateSet (t ++ l₂) = _
    rw [ih]
    simp [promoDateSet, Finset.union_assoc]

/-- A promotion whose end time-of-day is at or after its start
time-of-day steps over exactly the covered calendar dates. -/
theorem promoDates_aligned_eq_covered (p : Promo) (hp : Aligned p) :
    (promoDates p).toFinset = specCoveredDates p := by
  obtain ⟨ps, pe⟩ := p
  cases ps with
  | none =>
    cases pe with
    | none => simp [promoDates, specCoveredDates]
    | some e => simp [promoDates, specCoveredDates]
  | some s =>
    cases pe with
    | none => simp [promoDates, specCoveredDates]
    | some e =>
      have hfr : Int.fract s ≤ Int.fract e := hp s e rfl rfl
      show ((List.range (if s ≤ e then (⌊e - s⌋).toNat + 1 else 0)).map
          fun k : ℕ => ⌊s⌋ + (k : ℤ)).toFinset =
        (if s ≤ e then Finset.Icc ⌊s⌋ ⌊e⌋ else ∅)
      by_cases hle : s ≤ e
      · have hfloor : ⌊e - s⌋ = ⌊e⌋ - ⌊s⌋ := by
          have hd : e - s = ((⌊e⌋ - ⌊s⌋ : ℤ) : ℚ) + (Int.fract e - Int.fract s) := by
            have h1 := Int.floor_add_fract e
            have h2 := Int.floor_add_fract s
            push_cast
            linarith
          rw [hd, Int.floor_int_add]
          have hz : ⌊Int.fract e - Int.fract s⌋ = 0 := by
            have h1 : Int.fract e < 1 := Int.fract_lt_one e
            have h2 : 0 ≤ Int.fract s := Int.fract_nonneg s
            rw [Int.floor_eq_zero_iff, Set.mem_Ico]
            exact ⟨by linarith, by linarith⟩
          omega
        have hfl : ⌊s⌋ ≤ ⌊e⌋ := Int.floor_le_floor hle
        rw [if_pos hle, if_pos hle]
        ext x
        simp only [List.mem_toFinset, List.mem_map, List.mem_range, Finset.mem_Icc]
        have htn : (((⌊e - s⌋).toNat : ℤ)) = ⌊e⌋ - ⌊s⌋ := by
          rw [hfloor]; omega
        constructor
        · rintro ⟨k, hk, rfl⟩
          omega
        · rintro ⟨hx1, hx2⟩
          exact ⟨(x - ⌊s⌋).toNat, by omega, by omega⟩
      · rw [if_neg hle, if_neg hle]
        simp

/-- Under alignment of every promotion, the accumulated date set is the
union of the covered calendar dates. -/
theorem promoDateSet_aligned (promos : List Promo)
    (h : ∀ p ∈ promos, Aligned p) :
    promoDateSet promos = specPromoCovered promos := by
  induction promos with
  | nil => rfl
  | cons p t ih =>
    show (promoDates p).toFinset ∪ promoDateSet t = specCoveredDates p ∪ _
    rw [promoDates_aligned_eq_covered p (h p (by simp)),
      ih fun q hq => h q (by simp [hq])]
    rfl

/-- C6 (amended): `promo_days` is the cardinality of the set of dates
reached by stepping in whole-day increments from `start_date` while
still `≤ end_date`, per parsed promotion, deduplicated across
promotions through a set; whenever every promotion's end time-of-day is
at or after its start time-of-day (in particular for date-only
timestamps) that set is exactly the calendar dates covered by the
inclusive intervals; a promotion with a missing or malformed date field
is skipped without affecting the others; `has_promos = 1` iff the
promotion list is non-empty; and the overlapping date-only promotions
day 0..2 and day 1..3 yield `promo_days = 4`. -/
theorem promo_features_contract :
    (∀ promos, (process_promos promos).promo_days = (promoDateSet promos).card) ∧
    (∀ promos, (∀ p ∈ promos, Aligned p) →
      promoDateSet promos = specPromoCovered promos) ∧
    (∀ l₁ l₂ bad, (bad.start_date = none ∨ bad.end_date = none) →
      (process_promos (l₁ ++ bad :: l₂)).promo_days =
        (process_promos (l₁ ++ l₂)).promo_days) ∧
    (∀ promos, (process_promos promos).has_promos = 1 ↔ promos ≠ []) ∧
    (process_promos [⟨some 0, some 2⟩, ⟨some 1, some 3⟩]).promo_days = 4 := by
  have h1 : promoDates ⟨some 0, some 2⟩ = [0, 1, 2] := by
    show (List.range (if (0 : ℚ) ≤ 2 then (⌊(2 : ℚ) - 0⌋).toNat + 1 else 0)).map
        (fun k : ℕ => ⌊(0 : ℚ)⌋ + (k : ℤ)) = [0, 1, 2]
    rw [if_pos (by norm_num : (0 : ℚ) ≤ 2),
      (by norm_num : ⌊(2 : ℚ) - 0⌋ = 2)]
    simp only [show ⌊(0 : ℚ)⌋ = 0 from by norm_num]
    decide
  have h2 : promoDates ⟨some 1, some 3⟩ = [1, 2, 3] := by
    show (List.range (if (1 : ℚ) ≤ 3 then (⌊(3 : ℚ) - 1⌋).toNat + 1 else 0)).map
        (fun k : ℕ => ⌊(1 : ℚ)⌋ + (k : ℤ)) = [1, 2, 3]
    rw [if_pos (by norm_num : (1 : ℚ) ≤ 3),
      (by norm_num : ⌊(3 : ℚ) - 1⌋ = 2)]
    simp only [show ⌊(1 : ℚ)⌋ = 1 from by norm_num]
    decide
  refine ⟨promo_days_eq_card, promoDateSet_aligned, ?_, ?_, ?_⟩
  · intro l₁ l₂ bad hbad
    have hpd : promoDates bad = [] := by
      unfold promoDates
      rcases hbad with h | h
      · rw [h]
      · rw [h]
        cases bad.start_date with
        | none => rfl
        | some s => rfl
    rw [promo_days_eq_card, promo_days_eq_card, promoDateSet_append,
      promoDateSet_append]
    have : promoDateSet (bad :: l₂) = promoDateSet l₂ := by
      show (promoDates bad).toFinset ∪ promoDateSet l₂ = _
      rw [hpd]
      simp
    rw [this]
  · intro promos
    unfold process_promos
    cases promos with
    | nil => simp
    | cons p t => simp [List.isEmpty]
  · rw [promo_days_eq_card]
    show ((promoDates ⟨some 0, some 2⟩).toFinset ∪
      ((promoDates ⟨some 1, some 3⟩).toFinset ∪ ∅)).card = 4
    rw [h1, h2]
    decide

/-- Witness for the promo contract: alignment and malformed-skip
discharged at concrete inputs. -/
theorem promo_features_contract_witness :
    promoDateSet [⟨some 0, some 2⟩, ⟨some 1, some 3⟩] =
      specPromoCovered [⟨some 0, some 2⟩, ⟨some 1, some 3⟩] ∧
    (process_promos ([] ++ (⟨none, some 1⟩ : Promo) :: [⟨some 0, some 2⟩])).promo_days =
      (process_promos ([] ++ [⟨some 0, some 2⟩])).promo_days :=
  ⟨promo_features_contract.2.1 [⟨some 0, some 2⟩, ⟨some 1, some 3⟩]
    (by
      intro p hp s e hs he
      rcases List.mem_cons.mp hp with h | h
      · rw [h] at hs he
        cases hs; cases he; norm_num [Int.fract]
      · rcases List.mem_singleton.mp h with rfl
        cases hs; cases he; norm_num [Int.fract]),
   promo_features_contract.2.2.1 [] [⟨some 0, some 2⟩] ⟨none, some 1⟩ (Or.inl rfl)⟩

/-- C6, claim as stated, refuted: one promotion parsed as starting at
midday of day 0 and ending at midnight of day 1 covers the two calendar
dates {0, 1}, yet the stepping loop records only day 0, so
`promo_days = 1 ≠ 2`. -/
theorem promo_days_covered_refuted :
    (process_promos [⟨some (1/2), some 1⟩]).promo_days = 1 ∧
    (specPromoCovered [⟨some (1/2), some 1⟩]).card = 2 ∧
    (process_promos [⟨some (1/2), some 1⟩]).promo_days ≠
      (specPromoCovered [⟨some (1/2), some 1⟩]).card := by
  have hd : promoDates ⟨some (1/2), some 1⟩ = [0] := by
    show (List.range (if (1/2 : ℚ) ≤ 1 then (⌊(1 : ℚ) - 1/2⌋).toNat + 1 else 0)).map
        (fun k : ℕ => ⌊(1/2 : ℚ)⌋ + (k : ℤ)) = [0]
    rw [if_pos (by norm_num : (1/2 : ℚ) ≤ 1),
      (by norm_num : ⌊(1 : ℚ) - 1/2⌋ = 0)]
    simp only [show ⌊(1/2 : ℚ)⌋ = 0 from by norm_num]
    decide
  have ha : (process_promos [(⟨some (1/2), some 1⟩ : Promo)]).promo_days = 1 := by
    rw [promo_days_eq_card]
    show ((promoDates ⟨some (1/2), some 1⟩).toFinset ∪ ∅).card = 1
    rw [hd]
    decide
  have hb : (specPromoCovered [(⟨some (1/2), some 1⟩ : Promo)]).card = 2 := by
    show (specCoveredDates ⟨some (1/2), some 1⟩ ∪ ∅).card = 2
    show ((if (1/2 : ℚ) ≤ 1 then Finset.Icc ⌊(1/2 : ℚ)⌋ ⌊(1 : ℚ)⌋ else ∅) ∪ ∅).card = 2
    rw [if_pos (by norm_num : (1/2 : ℚ) ≤ 1),
      (by norm_num : ⌊(1/2 : ℚ)⌋ = 0), (by norm_num : ⌊(1 : ℚ)⌋ = 1)]
    decide
  exact ⟨ha, hb, by rw [ha, hb]; decide⟩

theorem setVal_restore {χ : Type} (r : Row χ) (f : TunableFeature) (v : ℚ) :
    setVal (setVal r f v) f (r.tunable f) = r := by
  unfold setVal
  rw [Function.update_idem, Function.update_eq_self]

/-- The sweep fold keeps the scratch copy equal to the input row at
every loop boundary and accumulates exactly the per-feature candidates
and predictor calls, in declaration order. -/
theorem sweep_foldl {χ : Type} (df : Row χ) (predict : Row χ → ℚ) :
    ∀ (l : List (TunableFeature × TuneParams)) (recs : List Rec)
      (calls : List (Row χ)),
      l.foldl (sweepStep predict df (predict df)) (df, recs, calls) =
        (df, recs ++ l.filterMap (candidateOpt df predict),
         calls ++ l.filterMap (callOpt df)) := by
  intro l
  induction l with
  | nil => intro recs calls; simp
  | cons fp t ih =>
    intro recs calls
    show t.foldl _ (sweepStep predict df (predict df) (df, recs, calls) fp) = _
    rw [List.filterMap_cons, List.filterMap_cons]
    by_cases hpres : df.present fp.1 = false
    · have hst : sweepStep predict df (predict df) (df, recs, calls) fp =
          (df, recs, calls) := by
        unfold sweepStep; rw [if_pos hpres]
      have hc1 : candidateOpt df predict fp = none := by
        unfold candidateOpt; rw [if_pos hpres]
      have hc2 : callOpt df fp = none := by
        unfold callOpt; rw [if_pos hpres]
      rw [hst, hc1, hc2, ih]
    · by_cases hnew : clampNew (df.tunable fp.1) fp.2 = df.tunable fp.1
      · have hst : sweepStep predict df (predict df) (df, recs, calls) fp =
            (df, recs, calls) := by
          unfold sweepStep; rw [if_neg hpres, if_pos hnew]
        have hc1 : candidateOpt df predict fp = none := by
          unfold candidateOpt; rw [if_neg hpres, if_pos hnew]
        have hc2 : callOpt df fp = none := by
          unfold callOpt; rw [if_neg hpres, if_pos hnew]
        rw [hst, hc1, hc2, ih]
      · have hc2 : callOpt df fp =
            some (setVal df fp.1 (clampNew (df.tunable fp.1) fp.2)) := by
          unfold callOpt; rw [if_neg hpres, if_neg hnew]
        by_cases himp : 0 < predict df -
            predict (setVal df fp.1 (clampNew (df.tunable fp.1) fp.2))
        · have hst : sweepStep predict df (predict df) (df, recs, calls) fp =
              (df,
               recs ++ [⟨fp.1, df.tunable fp.1, clampNew (df.tunable fp.1) fp.2,
                 predict df -
                   predict (setVal df fp.1 (clampNew (df.tunable fp.1) fp.2))⟩],
               calls ++ [setVal df fp.1 (clampNew (df.tunable fp.1) fp.2)]) := by
            unfold sweepStep
            rw [if_neg hpres, if_neg hnew]
            simp only [if_pos himp, setVal_restore]
          have hc1 : candidateOpt df predict fp =
              some ⟨fp.1, df.tunable fp.1, clampNew (df.tunable fp.1) fp.2,
                predict df -
                  predict (setVal df fp.1 (clampNew (df.tunable fp.1) fp.2))⟩ := by
            unfold candidateOpt
            rw [if_neg hpres, if_neg hnew]
            simp only [if_pos himp]
          rw [hst, hc1, hc2, ih]
          simp
        · have hst : sweepStep predict df (predict df) (df, recs, calls) fp =
              (df, recs,
               calls ++ [setVal df fp.1 (clampNew (df.tunable fp.1) fp.2)]) := by
            unfold sweepStep
            rw [if_neg hpres, if_neg hnew]
            simp only [if_neg himp, setVal_restore]
          have hc1 : candidateOpt df predict fp = none := by
            unfold candidateOpt
            rw [if_neg hpres, if_neg hnew]
            simp only [if_neg himp]
          rw [hst, hc1, hc2, ih]
          simp

/-- The sweep in closed form. -/
theorem sweep_eq {χ : Type} (df : Row χ) (predict : Row χ → ℚ) :
    sweep df predict =
      (df, TUNABLE_FEATURES.filterMap (candidateOpt df predict),
       TUNABLE_FEATURES.filterMap (callOpt df)) := by
  unfold sweep
  simpa using sweep_foldl df predict TUNABLE_FEATURES [] []

/-- Every entry of `TUNABLE_FEATURES` pairs a feature with its own
parameters. -/
theorem mem_TUNABLE_FEATURES {fp : TunableFeature × TuneParams}
    (h : fp ∈ TUNABLE_FEATURES) : fp.2 = tuneParams fp.1 := by
  obtain ⟨f, _, rfl⟩ := List.mem_map.mp h
  rfl

/-- C9: every predictor call of the sweep is made on a record equal to
the input with exactly one tunable feature set to its clamped candidate
value — all other tunable cells, the presence map and the remaining
columns are untouched — and the scratch copy ends the sweep restored to
the input, so perturbations never compound. -/
theorem sweep_one_at_a_time :
    ∀ (χ : Type) (df : Row χ) (predict : Row χ → ℚ),
      sweepScratch df predict = df ∧
      ∀ r ∈ sweepCalls df predict, ∃ f : TunableFeature,
        r = setVal df f (clampNew (df.tunable f) (tuneParams f)) ∧
        r.tunable f ≠ df.tunable f ∧
        (∀ g, g ≠ f → r.tunable g = df.tunable g) ∧
        r.present = df.present ∧ r.rest = df.rest := by
  intro χ df predict
  constructor
  · unfold sweepScratch
    rw [sweep_eq]
  · intro r hr
    unfold sweepCalls at hr
    rw [sweep_eq] at hr
    obtain ⟨fp, hmem, hopt⟩ := List.mem_filterMap.mp hr
    have hparams : fp.2 = tuneParams fp.1 := mem_TUNABLE_FEATURES hmem
    simp only [callOpt] at hopt
    by_cases hpres : df.present fp.1 = false
    · rw [if_pos hpres] at hopt; exact absurd hopt (by simp)
    · rw [if_neg hpres] at hopt
      by_cases hnew : clampNew (df.tunable fp.1) fp.2 = df.tunable fp.1
      · rw [if_pos hnew] at hopt; exact absurd hopt (by simp)
      · rw [if_neg hnew] at hopt
        have hr' : r = setVal df fp.1 (clampNew (df.tunable fp.1) fp.2) :=
          (Option.some.injEq _ _ ▸ hopt).symm
        refine ⟨fp.1, by rw [hr', hparams], ?_, ?_, ?_, ?_⟩
        · rw [hr']
          unfold setVal
          simpa [Function.update_same] using hnew
        · intro g hg
          rw [hr']
          unfold setVal
          simp [Function.update_noteq hg]
        · rw [hr']; rfl
        · rw [hr']; rfl

/-- Witness for the one-at-a-time property: on the concrete example row
the sweep's scratch copy ends restored, and the logged predictor call
on the perturbed price row is a single-feature change. -/
theorem sweep_one_at_a_time_witness :
    sweepScratch exampleRow examplePredict = exampleRow ∧
    (∃ f : TunableFeature,
      setVal exampleRow TunableFeature.price
          (clampNew (exampleRow.tunable TunableFeature.price)
            (tuneParams TunableFeature.price)) =
        setVal exampleRow f (clampNew (exampleRow.tunable f) (tuneParams f)) ∧
      (setVal exampleRow TunableFeature.price
          (clampNew (exampleRow.tunable TunableFeature.price)
            (tuneParams TunableFeature.price))).tunable f ≠
        exampleRow.tunable f ∧
      (∀ g, g ≠ f →
        (setVal exampleRow TunableFeature.price
            (clampNew (exampleRow.tunable TunableFeature.price)
              (tuneParams TunableFeature.price))).tunable g =
          exampleRow.tunable g) ∧
      (setVal exampleRow TunableFeature.price
          (clampNew (exampleRow.tunable TunableFeature.price)
            (tuneParams TunableFeature.price))).present = exampleRow.present ∧
      (setVal exampleRow TunableFeature.price
          (clampNew (exampleRow.tunable TunableFeature.price)
            (tuneParams TunableFeature.price))).rest = exampleRow.rest) :=
  ⟨(sweep_one_at_a_time Unit exampleRow examplePredict).1,
   (sweep_one_at_a_time Unit exampleRow examplePredict).2
    (setVal exampleRow TunableFeature.price
      (clampNew (exampleRow.tunable TunableFeature.price)
        (tuneParams TunableFeature.price)))
    (by
      unfold sweepCalls
      rw [sweep_eq]
      refine List.mem_filterMap.mpr ⟨(.price, tuneParams .price), ?_, ?_⟩
      · exact List.mem_map.mpr ⟨.price, by decide, rfl⟩
      · unfold callOpt
        rw [if_neg (by decide),
          if_neg (by norm_num [clampNew, tuneParams, exampleRow])])⟩

theorem setVal_self {χ : Type} (r : Row χ) (f : TunableFeature) :
    setVal r f (r.tunable f) = r := by
  unfold setVal
  rw [Function.update_eq_self]

theorem recRank_le {a b : Rec} (h : recRank a b) : recLE a b := by
  rcases h with h | ⟨h, _⟩
  · exact le_of_lt h
  · exact le_of_eq h.symm

/-- Inserting an element whose declaration index is smaller than that
of every element of a rank-sorted list keeps the list rank-sorted: this
is the stability of the insertion sort modelling Python's stable
`list.sort`. -/
theorem orderedInsert_rank (a : Rec) :
    ∀ s : List Rec, s.Pairwise recRank →
      (∀ x ∈ s, declIdx a.feature < declIdx x.feature) →
      (List.orderedInsert recLE a s).Pairwise recRank := by
  intro s
  induction s with
  | nil => intro _ _; simp
  | cons b u ih =>
    intro hp hidx
    obtain ⟨hb, hu⟩ := List.pairwise_cons.mp hp
    show (if recLE a b then a :: b :: u
      else b :: List.orderedInsert recLE a u).Pairwise recRank
    by_cases hab : recLE a b
    · rw [if_pos hab]
      refine List.pairwise_cons.mpr ⟨?_, hp⟩
      intro y hy
      rcases List.mem_cons.mp hy with rfl | hyu
      · rcases lt_or_eq_of_le hab with hlt | heq
        · exact Or.inl hlt
        · exact Or.inr ⟨heq.symm, hidx y (by simp)⟩
      · have hyle : y.improvement ≤ a.improvement :=
          le_trans (recRank_le (hb y hyu)) hab
        rcases lt_or_eq_of_le hyle with hlt | heq
        · exact Or.inl hlt
        · exact Or.inr ⟨heq.symm, hidx y (by simp [hyu])⟩
    · rw [if_neg hab]
      refine List.pairwise_cons.mpr
        ⟨?_, ih hu fun x hx => hidx x (by simp [hx])⟩
      intro y hy
      rcases (List.mem_orderedInsert recLE).mp hy with rfl | hyu
      · exact Or.inl (not_le.mp hab)
      · exact hb y hyu

/-- Insertion sort of a list with strictly increasing declaration
indices is sorted by improvement descending with declaration-order
tie-break. -/
theorem insertionSort_rank :
    ∀ l : List Rec,
      l.Pairwise (fun a b => declIdx a.feature < declIdx b.feature) →
      (List.insertionSort recLE l).Pairwise recRank := by
  intro l
  induction l with
  | nil => intro _; simp
  | cons a t ih =>
    intro hp
    obtain ⟨ha, ht⟩ := List.pairwise_cons.mp hp
    show (List.orderedInsert recLE a (List.insertionSort recLE t)).Pairwise recRank
    exact orderedInsert_rank a _ (ih ht)
      fun x hx => ha x ((List.perm_insertionSort recLE t).mem_iff.mp hx)

/-- What a produced candidate looks like. -/
theorem candidateOpt_some {χ : Type} {df : Row χ} {predict : Row χ → ℚ}
    {fp : TunableFeature × TuneParams} {r : Rec}
    (h : candidateOpt df predict fp = some r) :
    df.present fp.1 = true ∧
    clampNew (df.tunable fp.1) fp.2 ≠ df.tunable fp.1 ∧
    0 < predict df - predict (setVal df fp.1 (clampNew (df.tunable fp.1) fp.2)) ∧
    r = ⟨fp.1, df.tunable fp.1, clampNew (df.tunable fp.1) fp.2,
      predict df - predict (setVal df fp.1 (clampNew (df.tunable fp.1) fp.2))⟩ := by
  simp only [candidateOpt] at h
  by_cases hpres : df.present fp.1 = false
  · rw [if_pos hpres] at h; exact absurd h (by simp)
  · rw [if_neg hpres] at h
    by_cases hnew : clampNew (df.tunable fp.1) fp.2 = df.tunable fp.1
    · rw [if_pos hnew] at h; exact absurd h (by simp)
    · rw [if_neg hnew] at h
      by_cases himp : 0 < predict df -
          predict (setVal df fp.1 (clampNew (df.tunable fp.1) fp.2))
      · rw [if_pos himp] at h
        exact ⟨Bool.not_eq_false _ ▸ hpres, hnew, himp,
          (Option.some.injEq _ _ ▸ h).symm⟩
      · rw [if_neg himp] at h; exact absurd h (by simp)

/-- Every feature is in the declaration list. -/
theorem mem_tunableOrder (f : TunableFeature) : f ∈ tunableOrder := by
  cases f <;> decide

/-- The candidates list carries strictly increasing declaration
indices. -/
theorem cands_pairwise_idx {χ : Type} (df : Row χ) (predict : Row χ → ℚ) :
    (TUNABLE_FEATURES.filterMap (candidateOpt df predict)).Pairwise
      (fun a b => declIdx a.feature < declIdx b.feature) := by
  refine List.Pairwise.filterMap (candidateOpt df predict)
    (fun fp gq hR r hr s hs => ?_)
    (show TUNABLE_FEATURES.Pairwise
      (fun fp gq => declIdx fp.1 < declIdx gq.1) by decide)
  rw [(candidateOpt_some hr).2.2.2, (candidateOpt_some hs).2.2.2]
  exact hR

/-- C2: the sorted recommendation list contains exactly the tunable
features present in the record whose clamped single-feature
perturbation yields `improvement = baseline - perturbed_prediction`
strictly greater than 0; each entry carries that perturbation; the list
is ordered by improvement descending with ties in declaration order of
the tunable-feature set; and at most the top 5 entries are reported. -/
theorem recommendations_contract :
    ∀ (χ : Type) (df : Row χ) (predict : Row χ → ℚ),
      (∀ f : TunableFeature,
        (∃ r ∈ recommendations df predict, r.feature = f) ↔
          (df.present f = true ∧ 0 < (candidate df predict f).improvement)) ∧
      (∀ r ∈ recommendations df predict,
        r = candidate df predict r.feature ∧ 0 < r.improvement) ∧
      ((recommendations df predict).map (·.feature)).Nodup ∧
      (recommendations df predict).Pairwise recRank ∧
      reported df predict = (recommendations df predict).take 5 ∧
      (reported df predict).length ≤ 5 := by
  intro χ df predict
  have hre : recommendations df predict =
      List.insertionSort recLE
        (TUNABLE_FEATURES.filterMap (candidateOpt df predict)) := by
    unfold recommendations
    rw [sweep_eq]
  have hmemiff : ∀ r : Rec, r ∈ recommendations df predict ↔
      r ∈ TUNABLE_FEATURES.filterMap (candidateOpt df predict) := by
    intro r
    rw [hre]
    exact (List.perm_insertionSort recLE _).mem_iff
  have hchar : ∀ r ∈ recommendations df predict,
      r = candidate df predict r.feature ∧ 0 < r.improvement ∧
        df.present r.feature = true := by
    intro r hr
    obtain ⟨fp, hfp, hopt⟩ := List.mem_filterMap.mp ((hmemiff r).mp hr)
    obtain ⟨hpres, _, himp, hform⟩ := candidateOpt_some hopt
    have hp2 : fp.2 = tuneParams fp.1 := mem_TUNABLE_FEATURES hfp
    have hfeat : r.feature = fp.1 := by rw [hform]
    refine ⟨?_, ?_, ?_⟩
    · rw [hform]
      show _ = candidate df predict fp.1
      simp only [candidate]
      rw [← hp2]
    · rw [hform]
      exact himp
    · rw [hfeat]
      exact hpres
  refine ⟨?_, fun r hr => ⟨(hchar r hr).1, (hchar r hr).2.1⟩, ?_, ?_, rfl, ?_⟩
  · intro f
    constructor
    · rintro ⟨r, hr, rfl⟩
      obtain ⟨hform, himp, hpres⟩ := hchar r hr
      exact ⟨hpres, by rw [← hform]; exact himp⟩
    · rintro ⟨hpres, himp⟩
      refine ⟨candidate df predict f, ?_, rfl⟩
      rw [hmemiff]
      refine List.mem_filterMap.mpr ⟨(f, tuneParams f),
        List.mem_map.mpr ⟨f, mem_tunableOrder f, rfl⟩, ?_⟩
      have hnew : clampNew (df.tunable f) (tuneParams f) ≠ df.tunable f := by
        intro hc
        have : candidate df predict f =
            ⟨f, df.tunable f, df.tunable f, predict df - predict df⟩ := by
          simp only [candidate]
          rw [hc, setVal_self df f]
        rw [this] at himp
        simp at himp
      have himp' : 0 < predict df -
          predict (setVal df f (clampNew (df.tunable f) (tuneParams f))) := himp
      simp only [candidateOpt]
      rw [if_neg (by rw [hpres]; simp), if_neg hnew, if_pos himp']
      rfl
  · have hnd : ((TUNABLE_FEATURES.filterMap
        (candidateOpt df predict)).map (·.feature)).Nodup :=
      List.Pairwise.map (fun r : Rec => r.feature)
        (fun a b (h : a.feature ≠ b.feature) => h)
        ((cands_pairwise_idx df predict).imp fun hab heq => by
          rw [heq] at hab
          exact Nat.lt_irrefl _ hab)
    have hperm : List.Perm
        ((recommendations df predict).map fun r : Rec => r.feature)
        ((TUNABLE_FEATURES.filterMap (candidateOpt df predict)).map
          fun r : Rec => r.feature) := by
      rw [hre]
      exact (List.perm_insertionSort recLE _).map _
    exact hperm.nodup_iff.mpr hnd
  · rw [hre]
    exact insertionSort_rank _ (cands_pairwise_idx df predict)
  · unfold reported
    rw [List.length_take]
    exact min_le_left _ _

/-- Witness for the recommendation contract: on the concrete example
row, lowering the price by its step improves the prediction, so the
price feature appears in the output list. -/
theorem recommendations_contract_witness :
    ∃ r ∈ recommendations exampleRow examplePredict,
      r.feature = TunableFeature.price :=
  ((recommendations_contract Unit exampleRow examplePredict).1
    TunableFeature.price).mpr
    ⟨by decide,
     by norm_num [candidate, examplePredict, exampleRow, setVal, tuneParams,
       clampNew, Function.update_same]⟩

/-- Nulling cells `≤ 1` and then skipping nulls is filtering the
parsed column for values `> 1`. -/
theorem filterMap_bind_filter {α : Type} (g : α → Option ℚ) :
    ∀ l : List α,
      (l.filterMap fun a => (g a).bind fun x => if 1 < x then some x else none) =
        (l.filterMap g).filter fun x => 1 < x := by
  intro l
  induction l with
  | nil => rfl
  | cons a t ih =>
    rw [List.filterMap_cons, List.filterMap_cons]
    cases hg : g a with
    | none => simpa using ih
    | some x =>
      by_cases hx : 1 < x
      · simp [hx, List.filter_cons, ih]
      · simp [hx, List.filter_cons, ih]

theorem listMin_mem : ∀ {l : List ℚ} {m : ℚ}, listMin l = some m → m ∈ l := by
  intro l
  induction l with
  | nil => intro m h; exact absurd h (by simp [listMin])
  | cons x xs ih =>
    intro m h
    unfold listMin at h
    cases hxs : listMin xs with
    | none =>
      rw [hxs] at h
      cases h
      exact List.mem_cons_self x xs
    | some m' =>
      rw [hxs] at h
      cases h
      rcases min_choice x m' with hc | hc
      · rw [hc]; exact List.mem_cons_self x xs
      · rw [hc]; exact List.mem_cons_of_mem x (ih hxs)

/-- The column minimum the code computes equals the minimum over the
spec's valid-duration list. -/
theorem delivery_times_eq (ws : List String) (matrix : List MatrixRow) (fo : Fo) :
    get_delivery_times ws matrix fo = listMin (specRegionDurations ws matrix fo) := by
  simp only [get_delivery_times, specRegionDurations]
  rw [filterMap_bind_filter]

/-- Any valid minimum is strictly greater than 1. -/
theorem delivery_times_gt_one {ws : List String} {matrix : List MatrixRow}
    {fo : Fo} {m : ℚ} (h : get_delivery_times ws matrix fo = some m) : 1 < m := by
  rw [delivery_times_eq] at h
  have := listMin_mem h
  unfold specRegionDurations at this
  have := List.of_mem_filter this
  simpa using this

/-- A row of the resolved warehouse set comes from the matrix. -/
theorem mem_resolved {matrix : List MatrixRow} {r : MatrixRow}
    {ws : List String}
    (h : r ∈ (if (matrix.filter fun r => r.sklad ∈ ws).isEmpty
      then matrix.filter fun r => r.sklad ∈ FALLBACK_WAREHOUSES
      else matrix.filter fun r => r.sklad ∈ ws)) : r ∈ matrix := by
  by_cases he : (matrix.filter fun r => r.sklad ∈ ws).isEmpty
  · rw [if_pos he] at h
    exact (List.mem_filter.mp h).1
  · rw [if_neg he] at h
    exact (List.mem_filter.mp h).1

/-- C8: with the warehouse set fetched, each `delivery_<region>` field
is the truncated minimum of the duration values strictly greater than 1
for that region over the matrix rows matching the resolved warehouse
set (0 when no such value exists), and `avg_delivery_time` is the
truncated mean of the per-region minima of the populated regions (0
when none is populated); in particular when every candidate duration is
at most 1, every field and the average are 0 and nothing is raised. -/
theorem delivery_features_contract :
    (∀ ws matrix (fo : Fo),
      (get_delivery_features (.ok ws) matrix).1 fo =
        (match listMin (specRegionDurations ws matrix fo) with
         | some m => pyInt m
         | none => 0)) ∧
    (∀ ws matrix,
      (get_delivery_features (.ok ws) matrix).2 =
        (if (FO_LIST.filterMap fun fo =>
            listMin (specRegionDurations ws matrix fo)).isEmpty then 0
         else pyInt ((FO_LIST.filterMap fun fo =>
            listMin (specRegionDurations ws matrix fo)).sum /
          ((FO_LIST.filterMap fun fo =>
            listMin (specRegionDurations ws matrix fo)).length : ℚ)))) ∧
    (∀ ws matrix, (∀ r ∈ matrix, ∀ fo x, r.durations fo = some x → x ≤ 1) →
      (∀ fo : Fo, (get_delivery_features (.ok ws) matrix).1 fo = 0) ∧
      (get_delivery_features (.ok ws) matrix).2 = 0) := by
  have hbind : ∀ ws matrix (fo : Fo),
      ((get_delivery_times ws matrix fo).bind fun t =>
        if 0 < t then some t else none) = get_delivery_times ws matrix fo := by
    intro ws matrix fo
    cases h : get_delivery_times ws matrix fo with
    | none => rfl
    | some t =>
      have h1 : (1 : ℚ) < t := delivery_times_gt_one h
      simp [lt_trans zero_lt_one h1]
  have hfield : ∀ ws matrix (fo : Fo),
      (get_delivery_features (.ok ws) matrix).1 fo =
        (match listMin (specRegionDurations ws matrix fo) with
         | some m => pyInt m
         | none => 0) := by
    intro ws matrix fo
    show (match get_delivery_times ws matrix fo with
      | some t => if 0 < t then pyInt t else 0
      | none => 0) = _
    cases h : get_delivery_times ws matrix fo with
    | none => rw [← delivery_times_eq, h]
    | some t =>
      rw [← delivery_times_eq, h]
      have h1 : (1 : ℚ) < t := delivery_times_gt_one h
      simp [lt_trans zero_lt_one h1]
  have havg : ∀ ws matrix,
      (get_delivery_features (.ok ws) matrix).2 =
        (if (FO_LIST.filterMap fun fo =>
            listMin (specRegionDurations ws matrix fo)).isEmpty then 0
         else pyInt ((FO_LIST.filterMap fun fo =>
            listMin (specRegionDurations ws matrix fo)).sum /
          ((FO_LIST.filterMap fun fo =>
            listMin (specRegionDurations ws matrix fo)).length : ℚ))) := by
    intro ws matrix
    show (if (FO_LIST.filterMap fun fo =>
          (get_delivery_times ws matrix fo).bind fun t =>
            if 0 < t then some t else none).isEmpty then 0
      else pyInt ((FO_LIST.filterMap fun fo =>
          (get_delivery_times ws matrix fo).bind fun t =>
            if 0 < t then some t else none).sum /
        ((FO_LIST.filterMap fun fo =>
          (get_delivery_times ws matrix fo).bind fun t =>
            if 0 < t then some t else none).length : ℚ))) = _
    have hfun : (fun fo => (get_delivery_times ws matrix fo).bind fun t =>
        if 0 < t then some t else none) =
        fun fo => listMin (specRegionDurations ws matrix fo) := by
      funext fo
      rw [hbind, delivery_times_eq]
    rw [hfun]
  refine ⟨hfield, havg, ?_⟩
  intro ws matrix hsmall
  have hnil : ∀ fo : Fo, specRegionDurations ws matrix fo = [] := by
    intro fo
    unfold specRegionDurations
    rw [List.filter_eq_nil_iff]
    intro x hx
    obtain ⟨r, hr, hdur⟩ := List.mem_filterMap.mp hx
    have hxle : x ≤ 1 := hsmall r (mem_resolved hr) fo x hdur
    simpa using not_lt.mpr hxle
  constructor
  · intro fo
    rw [hfield, hnil fo]
    rfl
  · rw [havg]
    have : (FO_LIST.filterMap fun fo =>
        listMin (specRegionDurations ws matrix fo)) = [] := by
      refine List.filterMap_eq_nil_iff.mpr ?_
      intro fo _
      rw [hnil fo]
      rfl
    rw [this]
    rfl

/-- Witness for the delivery contract at the empty matrix: every field
and the average default to 0. -/
theorem delivery_features_contract_witness :
    (get_delivery_features (.ok ([] : List String)) ([] : List MatrixRow)).1
        Fo.yufo = 0 ∧
    (get_delivery_features (.ok ([] : List String)) ([] : List MatrixRow)).2 = 0 :=
  ⟨(delivery_features_contract.2.2 [] [] (by simp)).1 Fo.yufo,
   (delivery_features_contract.2.2 [] [] (by simp)).2⟩

/-- A failed or empty positions fetch leaves the defaults, for any
query. -/
theorem position_features_failed (q : Query) :
    (get_position_features q .empty).1 = defaultPositionFeatures ∧
    (get_position_features q .err).1 = defaultPositionFeatures := by
  cases q with
  | notStr => exact ⟨rfl, rfl⟩
  | str s =>
    by_cases hs : s = ""
    · subst hs; exact ⟨rfl, rfl⟩
    · constructor <;> simp [get_position_features, hs]

/-- When every collaborator fails or returns empty, the extracted
record is the default record except for the delivery features, which
still run the matrix computation (over the fallback warehouses when the
warehouse lookup merely returned empty). -/
theorem extract_all_failed_eq (pid : ℤ) (q : Query) (matrix : List MatrixRow)
    (c : Collaborators) (hc : AllFailed c) :
    extract_product_features pid q matrix c =
      { initialFeatures pid q with
        delivery := (get_delivery_features c.warehouses matrix).1
        avg_delivery_time := (get_delivery_features c.warehouses matrix).2 } := by
  obtain ⟨hp, hb, hg, hw, hpos⟩ := hc
  have hpf1 : (get_position_features q (Fetch.empty : Fetch (List PosEntry))).1 =
      defaultPositionFeatures := (position_features_failed q).1
  have hpf2 : (get_position_features q (Fetch.err : Fetch (List PosEntry))).1 =
      defaultPositionFeatures := (position_features_failed q).2
  rcases hp with hp | hp <;> rcases hg with hg | hg <;>
    rcases hw with hw | hw <;> rcases hpos with hpos | hpos <;>
    simp only [extract_product_features, hp, hg, hw, hpos, hpf1, hpf2,
      get_average_geo_visibility, defaultPositionFeatures, initialFeatures]

/-- C1 (amended): if every collaborator call fails or returns empty,
`extract_product_features` raises nothing and returns a structurally
complete record with every documented field at its documented default —
except the delivery fields, which are computed from the logistics
matrix over the fallback warehouse list when the warehouse lookup
returned empty (and are 0 whenever the lookup failed with an exception,
or the matrix yields no duration greater than 1). -/
theorem extract_full_default_contract :
    ∀ (pid : ℤ) (q : Query) (matrix : List MatrixRow) (c : Collaborators),
      AllFailed c →
      (extract_product_features pid q matrix c).product_id = pid ∧
      (extract_product_features pid q matrix c).query = q ∧
      (extract_product_features pid q matrix c).orders = 0 ∧
      (extract_product_features pid q matrix c).revenue = 0 ∧
      (extract_product_features pid q matrix c).price = 0 ∧
      (extract_product_features pid q matrix c).discount = 0 ∧
      (extract_product_features pid q matrix c).old_price = 0 ∧
      (extract_product_features pid q matrix c).rating = 0 ∧
      (extract_product_features pid q matrix c).in_stock_percent = 0 ∧
      (extract_product_features pid q matrix c).has_promos = 0 ∧
      (extract_product_features pid q matrix c).brand_rating = 0 ∧
      (extract_product_features pid q matrix c).brand_reviews = 0 ∧
      (extract_product_features pid q matrix c).reviews_last_day = 0 ∧
      (extract_product_features pid q matrix c).promo_days = 0 ∧
      (extract_product_features pid q matrix c).sum_views = 0 ∧
      (extract_product_features pid q matrix c).avg_visibility = 0 ∧
      (extract_product_features pid q matrix c).main_warehouse = "Не определен" ∧
      (extract_product_features pid q matrix c).avg_position = none ∧
      (extract_product_features pid q matrix c).expected_position = none ∧
      (extract_product_features pid q matrix c).positions_count = 0 ∧
      (extract_product_features pid q matrix c).positions_found = 0 ∧
      (extract_product_features pid q matrix c).first_valid_position = none ∧
      (extract_product_features pid q matrix c).loyalty_level = "Нет данных" ∧
      (extract_product_features pid q matrix c).delivery =
        (get_delivery_features c.warehouses matrix).1 ∧
      (extract_product_features pid q matrix c).avg_delivery_time =
        (get_delivery_features c.warehouses matrix).2 ∧
      (c.warehouses = .err →
        (∀ fo : Fo, (extract_product_features pid q matrix c).delivery fo = 0) ∧
        (extract_product_features pid q matrix c).avg_delivery_time = 0) := by
  intro pid q matrix c hc
  rw [extract_all_failed_eq pid q matrix c hc]
  refine ⟨rfl, rfl, rfl, rfl, rfl, rfl, rfl, rfl, rfl, rfl, rfl, rfl, rfl, rfl,
    rfl, rfl, rfl, rfl, rfl, rfl, rfl, rfl, rfl, rfl, rfl, ?_⟩
  intro hw
  rw [hw]
  exact ⟨fun fo => rfl, rfl⟩

/-- Witness for the all-failed contract at a concrete input with every
collaborator returning empty and the empty matrix. -/
theorem extract_full_default_contract_witness :
    (extract_product_features 1 (.str "x") [] emptyCollaborators).orders = 0 ∧
    (extract_product_features 1 (.str "x") []
      emptyCollaborators).main_warehouse = "Не определен" ∧
    (extract_product_features 1 (.str "x") []
      emptyCollaborators).avg_delivery_time =
      (get_delivery_features emptyCollaborators.warehouses []).2 :=
  ⟨(extract_full_default_contract 1 (.str "x") [] emptyCollaborators
      ⟨Or.inl rfl, Or.inl rfl, Or.inl rfl, Or.inl rfl, Or.inl rfl⟩).2.2.1,
   (extract_full_default_contract 1 (.str "x") [] emptyCollaborators
      ⟨Or.inl rfl, Or.inl rfl, Or.inl rfl, Or.inl rfl, Or.inl rfl⟩).2.2.2.2.2.2.2.2.2.2.2.2.2.2.2.2.1,
   (extract_full_default_contract 1 (.str "x") [] emptyCollaborators
      ⟨Or.inl rfl, Or.inl rfl, Or.inl rfl, Or.inl rfl, Or.inl rfl⟩).2.2.2.2.2.2.2.2.2.2.2.2.2.2.2.2.2.2.2.2.2.2.2.2.1⟩

/-- C1, claim as stated, refuted: with every collaborator returning
empty and a logistics matrix whose fallback-warehouse row carries a
measured ЮФО duration of 10, `extract_product_features` reports
`delivery_ЮФО = 10`, not the documented default 0 — the empty warehouse
lookup reroutes the delivery computation through the fallback warehouse
list instead of degrading to the defaults. -/
theorem extract_full_default_refuted :
    AllFailed emptyCollaborators ∧
    (extract_product_features 1 (.str "x") podolskMatrix
        emptyCollaborators).delivery Fo.yufo = 10 ∧
    (10 : ℤ) ≠ 0 := by
  refine ⟨⟨Or.inl rfl, Or.inl rfl, Or.inl rfl, Or.inl rfl, Or.inl rfl⟩, ?_,
    by decide⟩
  rw [extract_all_failed_eq 1 (.str "x") podolskMatrix emptyCollaborators
    ⟨Or.inl rfl, Or.inl rfl, Or.inl rfl, Or.inl rfl, Or.inl rfl⟩]
  show (get_delivery_features Fetch.empty podolskMatrix).1 Fo.yufo = 10
  decide

end PA
